import Mathlib

/-!
Verification development for the Fountain-to-Shotlist converter (`src/app.py`).

The core pipeline of the program is embedded shallowly:
  * the line classifiers `is_scene_heading`, `is_transition`, `is_character_cue`
    (regex predicates `SCENE_HEADING_RE`, `TRANSITION_RE`, `CHARACTER_RE`),
  * the screenplay parser `parse_fountain_text` (a fold of a step function over
    the document's lines, mirroring the Python loop body statement by statement),
  * the shotlist builder `build_shotlist_from_scenes` with its column-alias
    resolution (`possible_map` loop) and row construction.

Modelling conventions, noted where they matter:
  * Python `str` is modelled by `String` / `List Char`; `str.strip()` by
    `pyStrip` over the ASCII whitespace set (Python also strips a few Unicode
    whitespace code points; no theorem below depends on non-ASCII whitespace).
  * `str.lower()` / `ch.isupper()` / `ch.isalpha()` are modelled by the ASCII
    `Char.toLower` / `Char.isUpper` / `Char.isAlpha` (Python's are
    Unicode-aware; all catalog strings and classified tokens here are ASCII).
  * The float comparison `upper/alpha > 0.8` is modelled by the exact rational
    test `4 * alpha < 5 * upper`: both counts are at most 60, and for such
    fractions IEEE double division and the double literal `0.8` decide strict
    comparison exactly as the rationals `p/q > 4/5` do.
  * Each regex is translated to an executable Boolean function whose
    equivalence with the Python regex on the inputs it receives (always
    pre-stripped strings) is argued in its doc comment.
-/

namespace FountainShotlist

/-! ## Python string primitives -/

/-- ASCII whitespace, the subset of Python's `str.strip` / `\s` character
class that can occur in the texts treated here. -/
def isPySpace (c : Char) : Bool :=
  c == ' ' || c == '\t' || c == '\n' || c == '\r' ||
  c == Char.ofNat 0x0b || c == Char.ofNat 0x0c

/-- Python `s.strip()` on a character list: drop whitespace from both ends. -/
def pyStripL (s : List Char) : List Char :=
  (s.dropWhile isPySpace).rdropWhile isPySpace

/-- Python `s.strip()`. -/
def pyStrip (s : String) : String := String.mk (pyStripL s.data)

/-- Line-break characters recognized by Python `str.splitlines`. -/
def isLineBreak (c : Char) : Bool :=
  c == '\n' || c == '\r' || c == Char.ofNat 0x0b || c == Char.ofNat 0x0c ||
  c == Char.ofNat 0x1c || c == Char.ofNat 0x1d || c == Char.ofNat 0x1e ||
  c == Char.ofNat 0x85 || c == Char.ofNat 0x2028 || c == Char.ofNat 0x2029

/-- Worker for `splitlines`: `acc` holds the current line reversed. -/
def splitlinesAux : List Char → List Char → List String
  | [], acc => if acc.isEmpty then [] else [String.mk acc.reverse]
  | '\r' :: '\n' :: rest, acc => String.mk acc.reverse :: splitlinesAux rest []
  | c :: rest, acc =>
    if isLineBreak c then String.mk acc.reverse :: splitlinesAux rest []
    else splitlinesAux rest (c :: acc)

/-- Python `text.splitlines()`: `"\r\n"` counts as a single break; a trailing
break does not produce a final empty line. -/
def splitlines (text : String) : List String := splitlinesAux text.data []

/-- Python `raw.rstrip("\n")`: remove trailing newline characters only. -/
def rstripNL (s : String) : String := String.mk (s.data.rdropWhile (· == '\n'))

/-! ## Line classifiers -/

/-- Case-insensitive character comparison (ASCII `re.IGNORECASE`). -/
def lowerEq (a b : Char) : Bool := a.toLower == b.toLower

/-- If `tok` is a case-insensitive prefix of `s`, return the remainder. -/
def ciPrefixDrop : List Char → List Char → Option (List Char)
  | [], s => some s
  | _ :: _, [] => none
  | t :: ts, c :: cs => if lowerEq t c then ciPrefixDrop ts cs else none

/-- The alternatives of `(INT|EXT|INT/EXT|I/E)` in the order the regex lists
them (Python alternation tries them left to right). -/
def headTokens : List (List Char) :=
  ["INT".data, "EXT".data, "INT/EXT".data, "I/E".data]

/-- After a scene-type token, `SCENE_HEADING_RE` requires `\.?\s`: either a
period followed by one whitespace character, or one whitespace character. -/
def wsAfterTok : List Char → Bool
  | [] => false
  | '.' :: r2 =>
    match r2 with
    | c :: _ => isPySpace c
    | [] => false
  | c :: _ => isPySpace c

/-- `SCENE_HEADING_RE = ^\s*(INT|EXT|INT/EXT|I/E)\.?\s` (IGNORECASE) applied
to an already-stripped string (so `^\s*` consumes nothing).  A match exists
iff some alternative, as a case-insensitive prefix, is followed by `\.?\s`. -/
def sceneHeadingCore (s : List Char) : Bool :=
  headTokens.any fun t =>
    match ciPrefixDrop t s with
    | some r => wsAfterTok r
    | none => false

/-- `is_scene_heading(line)`: match `SCENE_HEADING_RE` against `line.strip()`. -/
def is_scene_heading (line : String) : Bool := sceneHeadingCore (pyStripL line.data)

/-- The character class `[A-Z \t]` of `TRANSITION_RE`. -/
def transitionClass (c : Char) : Bool := c.isUpper || c == ' ' || c == '\t'

/-- `TRANSITION_RE = ^\s*[A-Z \t]+TO:\s*$` applied to an already-stripped
string: the string must end in `TO:`, everything before that suffix must be
in `[A-Z \t]`, and there must be at least one such character (so the whole
string has length at least 4; in particular a bare `TO:` does not match). -/
def transitionCore (s : List Char) : Bool :=
  decide (4 ≤ s.length) &&
  (s.drop (s.length - 3) == ['T', 'O', ':']) &&
  (s.take (s.length - 3)).all transitionClass

/-- `is_transition(line)`: match `TRANSITION_RE` against `line.strip()`. -/
def is_transition (line : String) : Bool := transitionCore (pyStripL line.data)

/-- The character class `[A-Z0-9 \-\(\)\'\.]` of `CHARACTER_RE`. -/
def cueClass (c : Char) : Bool :=
  c.isUpper || c.isDigit || c == ' ' || c == '-' || c == '(' || c == ')' ||
  c == '\'' || c == '.'

/-- The optional `(?:\(.*\))?` tail of `CHARACTER_RE` followed by the end of
an already-stripped string: empty, or `(`, any characters other than a
newline, then a final `)`. -/
def parenTailOk : List Char → Bool
  | [] => true
  | '(' :: r => decide (r ≠ []) && (r.getLast? == some ')') && r.dropLast.all (· != '\n')
  | _ => false

/-- `CHARACTER_RE = ^\s*[A-Z0-9 \-\(\)\'\.]+(?:\(.*\))?\s*$` applied to an
already-stripped string: some nonempty prefix lies in the class and the rest
is an optional parenthesized tail. -/
def characterReCore (s : List Char) : Bool :=
  (List.range s.length).any fun i =>
    (s.take (i + 1)).all cueClass && parenTailOk (s.drop (i + 1))

/-- Body of `is_character_cue` on the stripped line `s`.  The Python code
applies `is_scene_heading` / `is_transition` to `s`, which strip again;
stripping is idempotent, so the core predicates are applied directly. -/
def cueCore (s : List Char) : Bool :=
  if s.isEmpty || decide (60 < s.length) then false
  else if sceneHeadingCore s || transitionCore s then false
  else
    let alpha := (s.filter Char.isAlpha).length
    if alpha = 0 then false
    else
      let upper := (s.filter Char.isUpper).length
      decide (4 * alpha < 5 * upper) && characterReCore s

/-- `is_character_cue(line)` from the source. -/
def is_character_cue (line : String) : Bool := cueCore (pyStripL line.data)

/-! ## Parser data model and state machine -/

/-- A scene record as built by `parse_fountain_text`: the Python dict with
keys `scene_number`, `scene_heading`, `beats` (pairs of kind and text, kind
being `"Action"` or `"Dialogue"`) and `characters` (a set, modelled as a
duplicate-free list in insertion order; it is only ever read sorted). -/
structure Scene where
  scene_number : Nat
  scene_heading : String
  beats : List (String × String)
  characters : List String
deriving Repr, DecidableEq

/-- The parser's mutable state: finalized scenes, the open scene if any, the
pending action-line buffer, and the active speaker if any. -/
structure PState where
  scenes : List Scene
  current_scene : Option Scene
  buffer_action : List String
  current_character : Option String
deriving Repr, DecidableEq

/-- The stripped, non-blank pieces of the action buffer
(`l.strip() for l in buffer_action if l.strip()`). -/
def actionPieces (buf : List String) : List (List Char) :=
  (buf.map (fun l => pyStripL l.data)).filter (fun p => !p.isEmpty)

/-- `" ".join(pieces)`. -/
def joinPieces : List (List Char) → List Char
  | [] => []
  | [p] => p
  | p :: ps => p ++ ' ' :: joinPieces ps

/-- `flush_action_as_beat` from the source, acting on the open scene: if the
buffer is nonempty and the whitespace-joined stripped lines are nonempty,
append an Action beat; the caller clears the buffer. -/
def flush_action_as_beat (buf : List String) (sc : Scene) : Scene :=
  if buf.isEmpty then sc
  else
    let t := String.mk (joinPieces (actionPieces buf))
    if t = "" then sc else { sc with beats := sc.beats ++ [("Action", t)] }

/-- `current_scene["characters"].add(name)`: sets ignore duplicates. -/
def addChar (sc : Scene) (name : String) : Scene :=
  if sc.characters.contains name then sc
  else { sc with characters := sc.characters ++ [name] }

/-- Close the open scene, if any, into the finalized list (flushing the
pending action buffer first), exactly as at a new heading or at end of input. -/
def closeScene (st : PState) : List Scene :=
  match st.current_scene with
  | some sc => st.scenes ++ [flush_action_as_beat st.buffer_action sc]
  | none => st.scenes

/-- One iteration of the `for raw in lines` loop of `parse_fountain_text`,
with the branches in the source's order: scene heading, no open scene, blank
line, character cue, active speaker, transition, plain action line. -/
def step (st : PState) (raw : String) : PState :=
  let line := rstripNL raw
  if is_scene_heading line then
    let scenes' := closeScene st
    { scenes := scenes',
      current_scene := some
        { scene_number := scenes'.length + 1,
          scene_heading := pyStrip line,
          beats := [],
          characters := [] },
      buffer_action := [],
      current_character := none }
  else
    match st.current_scene with
    | none => st
    | some sc =>
      if pyStrip line = "" then
        { st with current_scene := some (flush_action_as_beat st.buffer_action sc),
                  buffer_action := [],
                  current_character := none }
      else if is_character_cue line then
        { st with current_scene :=
                    some (addChar (flush_action_as_beat st.buffer_action sc) (pyStrip line)),
                  buffer_action := [],
                  current_character := some (pyStrip line) }
      else
        match st.current_character with
        | some ch =>
          let txt := pyStrip line
          if txt = "" then st
          else { st with current_scene :=
                           some { sc with beats := sc.beats ++ [("Dialogue", ch ++ ": " ++ txt)] } }
        | none =>
          if is_transition line then
            { st with current_scene := some (flush_action_as_beat st.buffer_action sc),
                      buffer_action := [] }
          else
            { st with buffer_action := st.buffer_action ++ [line] }

/-- The parser's initial state. -/
def initState : PState := { scenes := [], current_scene := none,
                            buffer_action := [], current_character := none }

/-- `parse_fountain_text` on an explicit line list: fold the loop body, then
close the open scene at end of input. -/
def parse_lines (lines : List String) : List Scene :=
  closeScene (lines.foldl step initState)

/-- `parse_fountain_text(text)` from the source. -/
def parse_fountain_text (text : String) : List Scene :=
  parse_lines (splitlines text)

/-! ## Shotlist builder -/

/-- The `possible_map` dict of `build_shotlist_from_scenes`: each logical
field with its ordered alias list, in the source's insertion order.  Note
that each field's own canonical name is the first alias of its list. -/
def possible_map : List (String × List String) :=
  [("Scene #", ["Scene #", "Scene", "Scene No", "Scene Number"]),
   ("Scene Heading", ["Scene Heading", "Heading", "Slugline"]),
   ("Beat/Action", ["Beat/Action", "Beat", "Action", "Description", "What Happens"]),
   ("Shot #", ["Shot #", "Shot Number", "Shot"]),
   ("Shot Type", ["Shot Type", "Type"]),
   ("Angle", ["Angle"]),
   ("Movement", ["Movement", "Move"]),
   ("Lens", ["Lens"]),
   ("Duration (s)", ["Duration (s)", "Duration", "Est. Duration (s)"]),
   ("Location", ["Location"]),
   ("Characters", ["Characters", "Cast"]),
   ("Notes", ["Notes"])]

/-- Normalized form of a column or alias name: `name.strip().lower()`. -/
def normKey (s : String) : List Char := (pyStripL s.data).map Char.toLower

/-- The comparison `c.strip().lower() == alias.strip().lower()`. -/
def normEq (c a : String) : Bool := normKey c == normKey a

/-- The nested alias loop: for each alias in priority order, scan the working
column list left to right; the first hit wins. -/
def findMatch : List String → List String → Option String
  | [], _ => none
  | a :: rest, cols =>
    match cols.find? (fun c => normEq c a) with
    | some c => some c
    | none => findMatch rest cols

/-- The `for logical, aliases in possible_map.items()` resolution loop:
returns the `col_map` entries in catalog order and the working column list
(the input schema plus canonical names appended for unmatched fields). -/
def resolveAll : List (String × List String) → List String →
    List (String × String) × List String
  | [], cols => ([], cols)
  | (logical, aliases) :: rest, cols =>
    match findMatch aliases cols with
    | some c =>
      let r := resolveAll rest cols
      ((logical, c) :: r.1, r.2)
    | none =>
      let cols1 := if cols.contains logical then cols else cols ++ [logical]
      let r := resolveAll rest cols1
      ((logical, logical) :: r.1, r.2)

/-- The dedup loop producing `uniq_cols`: keep the first occurrence of each
column name, preserving order (`seen` accumulates what was kept). -/
def uniqCols : List String → List String → List String
  | [], _ => []
  | c :: rest, seen =>
    if seen.contains c then uniqCols rest seen
    else c :: uniqCols rest (c :: seen)

/-- Python dict lookup `col_map[logical]` over the association list (keys are
unique, so first match is the binding). -/
def colValue : List (String × String) → String → String
  | [], k => k
  | p :: rest, k => if p.1 = k then p.2 else colValue rest k

/-- The `col_map` computed by `build_shotlist_from_scenes` for a schema. -/
def colMapOf (columns : List String) : List (String × String) :=
  (resolveAll possible_map columns).1

/-- The `uniq_cols` list computed by `build_shotlist_from_scenes`. -/
def outColsOf (columns : List String) : List String :=
  uniqCols (resolveAll possible_map columns).2 []

/-- A cell value: Python writes strings everywhere except `Scene #` and
`Shot #`, which receive integers. -/
inductive Cell where
  | str : String → Cell
  | num : Nat → Cell
deriving Repr, DecidableEq

/-- A row: the dict mapping each column of `uniq_cols` to a cell, with
subsequent updates, modelled as an association list keyed in `uniq_cols`
order. -/
abbrev Row := List (String × Cell)

/-- Dict assignment `row[k] = v`: every binding of `k` is overwritten in
place (the key is always present, since `col_map` values are members of
`uniq_cols`). -/
def setCell (row : Row) (k : String) (v : Cell) : Row :=
  row.map fun p => if p.1 = k then (k, v) else p

/-- Dict read `row[k]`. -/
def getCell (row : Row) (k : String) : Option Cell :=
  (row.find? fun p => p.1 == k).map (·.2)

/-- Lexicographic code-point comparison, as Python string `<=` used by
`sorted`. -/
def charsLe : List Char → List Char → Bool
  | [], _ => true
  | _ :: _, [] => false
  | a :: as, b :: bs => if a < b then true else if b < a then false else charsLe as bs

/-- Insert into a sorted list (ascending, stable). -/
def insertSorted (x : String) : List String → List String
  | [] => [x]
  | y :: ys => if charsLe x.data y.data then x :: y :: ys else y :: insertSorted x ys

/-- Python `sorted` on strings. -/
def sortedStrings (l : List String) : List String := l.foldr insertSorted []

/-- `", ".join(l)`. -/
def joinComma : List String → String
  | [] => ""
  | [x] => x
  | x :: xs => x ++ ", " ++ joinComma xs

/-- `", ".join(sorted(sc["characters"])) if sc["characters"] else ""`
(the empty set renders as the empty string, which `joinComma` already does). -/
def renderChars (chars : List String) : String := joinComma (sortedStrings chars)

/-- The Location derivation of the row loop:
`re.sub(r'^\s*(INT|EXT|INT/EXT|I/E)\.?\s*', '', heading, flags=re.IGNORECASE)`.
The pattern is anchored, so at most the prefix is removed.  Python picks the
first alternative (in the order INT, EXT, INT/EXT, I/E) that matches
case-insensitively; `\.?\s*` then consumes an optional period and a maximal
(possibly empty) whitespace run.  If no alternative matches, the heading is
unchanged. -/
def subHeadingChars (s : List Char) : List Char :=
  let rest := s.dropWhile isPySpace
  match headTokens.findSome? (fun t => ciPrefixDrop t rest) with
  | some r =>
    let r2 := match r with | '.' :: t => t | _ => r
    r2.dropWhile isPySpace
  | none => s

/-- `re.split(r'\s*-\s*', head_no_prefix)[0].strip()`: the first split
segment is everything before the first hyphen minus the whitespace absorbed
by the separator; stripping makes that simply
`strip (takeWhile (· ≠ '-'))`.  Combined with the prefix removal this is the
`loc` computed in the row loop (the `try/except` never fires). -/
def locFromHeading (heading : String) : String :=
  String.mk (pyStripL ((subHeadingChars heading.data).takeWhile (fun c => c ≠ '-')))

/-- One row of the shotlist, with the assignments in the source's order;
`Duration (s)` is never assigned and keeps its empty-string default. -/
def buildRow (ucols : List String) (cmap : List (String × String))
    (scene_num : Nat) (heading char_list : String) (n : Nat)
    (kind btext : String) : Row :=
  let row0 : Row := ucols.map fun c => (c, Cell.str "")
  let r1 := setCell row0 (colValue cmap "Scene #") (Cell.num scene_num)
  let r2 := setCell r1 (colValue cmap "Scene Heading") (Cell.str heading)
  let r3 := setCell r2 (colValue cmap "Beat/Action") (Cell.str ("[" ++ kind ++ "] " ++ btext))
  let r4 := setCell r3 (colValue cmap "Shot #") (Cell.num n)
  let r5 := setCell r4 (colValue cmap "Shot Type") (Cell.str "MS")
  let r6 := setCell r5 (colValue cmap "Angle") (Cell.str "Eye-level")
  let r7 := setCell r6 (colValue cmap "Movement") (Cell.str "Static")
  let r8 := setCell r7 (colValue cmap "Lens") (Cell.str "35mm")
  let r9 := setCell r8 (colValue cmap "Location") (Cell.str (locFromHeading heading))
  let r10 := setCell r9 (colValue cmap "Characters") (Cell.str char_list)
  setCell r10 (colValue cmap "Notes") (Cell.str "")

/-- The inner `for kind, beat_text in sc["beats"]` loop with its per-scene
`shot_counter` (starting at 1, incremented after each row). -/
def beatsRowsAux (ucols : List String) (cmap : List (String × String))
    (scene_num : Nat) (heading char_list : String) :
    List (String × String) → Nat → List Row
  | [], _ => []
  | (kind, btext) :: rest, n =>
    buildRow ucols cmap scene_num heading char_list n kind btext ::
      beatsRowsAux ucols cmap scene_num heading char_list rest (n + 1)

/-- The rows contributed by one scene. -/
def sceneBlock (columns : List String) (sc : Scene) : List Row :=
  beatsRowsAux (outColsOf columns) (colMapOf columns)
    sc.scene_number sc.scene_heading (renderChars sc.characters) sc.beats 1

/-- The result of `build_shotlist_from_scenes`: the DataFrame's column list
and its rows in order. -/
structure Shotlist where
  uniq_cols : List String
  rows : List Row
deriving Repr

/-- `build_shotlist_from_scenes(scenes, columns)` from the source: resolve
the column schema once, then emit one row per beat, scene by scene. -/
def build_shotlist_from_scenes (scenes : List Scene) (columns : List String) : Shotlist :=
  { uniq_cols := outColsOf columns,
    rows := (scenes.map (sceneBlock columns)).flatten }

/-! ## Specification-side definitions and proof infrastructure -/

/-- The number of input lines the parser recognizes as scene headings
(each line is first `rstrip`-ped of newlines, as in the loop). -/
def countSceneHeadings (text : String) : Nat :=
  (splitlines text).countP fun l => is_scene_heading (rstripNL l)

/-- Number of scenes in a parser state, counting the open one. -/
def totalScenes (st : PState) : Nat :=
  st.scenes.length + match st.current_scene with | some _ => 1 | none => 0

/-- Invariant: finalized scenes are numbered `1..n` in order, and the open
scene (if any) carries the next number. -/
def NumInv (st : PState) : Prop :=
  st.scenes.map Scene.scene_number = List.range' 1 st.scenes.length ∧
  ∀ sc, st.current_scene = some sc → sc.scene_number = st.scenes.length + 1

/-- All beats of a beat list are nonempty after trimming. -/
def beatsOK (l : List (String × String)) : Prop :=
  ∀ b ∈ l, pyStrip b.2 ≠ ""

/-- Invariant: every beat emitted so far is nonempty after trimming. -/
def BeatsInv (st : PState) : Prop :=
  (∀ sc ∈ st.scenes, beatsOK sc.beats) ∧
  ∀ sc, st.current_scene = some sc → beatsOK sc.beats

/-- The spec's worked example document. -/
def demoText : String := "INT. KITCHEN - DAY\nJohn walks in.\n\nJOHN\nHello."

/-- A small concrete scene used to instantiate universally quantified
theorems. -/
def demoScene : Scene :=
  { scene_number := 1, scene_heading := "INT. A - DAY",
    beats := [("Action", "He runs."), ("Action", "She waves.")], characters := [] }

/-! ## Lemmas about stripping -/

theorem pyStripL_eq_nil_iff (s : List Char) :
    pyStripL s = [] ↔ ∀ c ∈ s, isPySpace c := by
  unfold pyStripL
  rw [List.rdropWhile_eq_nil_iff]
  constructor
  · intro h c hc
    rw [← List.takeWhile_append_dropWhile (p := isPySpace) (l := s)] at hc
    rcases List.mem_append.mp hc with h1 | h2
    · exact List.mem_takeWhile_imp h1
    · exact h c h2
  · intro h c hc
    refine h c ?_
    rw [← List.takeWhile_append_dropWhile (p := isPySpace) (l := s)]
    exact List.mem_append.mpr (Or.inr hc)

theorem strip_last_not_space (s : List Char) (h : pyStripL s ≠ []) :
    ¬ isPySpace ((pyStripL s).getLast h) :=
  List.rdropWhile_last_not _ _ h

theorem strip_ne_nil_of_witness {s : List Char} {c : Char} (hc : c ∈ s)
    (hws : isPySpace c = false) : pyStripL s ≠ [] := by
  intro h
  have hx := (pyStripL_eq_nil_iff s).mp h c hc
  rw [hws] at hx
  exact Bool.false_ne_true hx

theorem stripL_exists_not_space {s : List Char} (h : pyStripL s ≠ []) :
    ∃ c ∈ pyStripL s, isPySpace c = false := by
  refine ⟨(pyStripL s).getLast h, List.getLast_mem h, ?_⟩
  have hx := strip_last_not_space s h
  simpa using hx

theorem mk_eq_empty_iff (l : List Char) : String.mk l = "" ↔ l = [] := by
  constructor
  · intro h
    exact congrArg String.data h
  · rintro rfl
    rfl

theorem pyStrip_ne_empty_iff (s : String) : pyStrip s ≠ "" ↔ pyStripL s.data ≠ [] := by
  unfold pyStrip
  exact not_congr (mk_eq_empty_iff _)

/-! ## Lemmas about the dedup pass -/

theorem mem_uniqCols : ∀ (l seen : List String) (x : String),
    x ∈ uniqCols l seen ↔ x ∈ l ∧ x ∉ seen := by
  intro l
  induction l with
  | nil => intro seen x; simp [uniqCols]
  | cons c rest ih =>
    intro seen x
    by_cases hc : c ∈ seen
    · have hcc : seen.contains c = true := by simpa using hc
      rw [uniqCols, if_pos hcc, ih seen x]
      constructor
      · rintro ⟨h1, h2⟩
        exact ⟨List.mem_cons_of_mem _ h1, h2⟩
      · rintro ⟨h1, h2⟩
        rcases List.mem_cons.mp h1 with rfl | h1
        · exact absurd hc h2
        · exact ⟨h1, h2⟩
    · have hcc : ¬ (seen.contains c = true) := by simpa using hc
      rw [uniqCols, if_neg hcc, List.mem_cons, ih (c :: seen) x]
      constructor
      · rintro (rfl | ⟨h1, h2⟩)
        · exact ⟨List.mem_cons_self _ _, hc⟩
        · exact ⟨List.mem_cons_of_mem _ h1, fun hx => h2 (List.mem_cons_of_mem _ hx)⟩
      · rintro ⟨h1, h2⟩
        rcases List.mem_cons.mp h1 with rfl | h1
        · exact Or.inl rfl
        · by_cases hxc : x = c
          · exact Or.inl hxc
          · exact Or.inr ⟨h1, fun hx => (List.mem_cons.mp hx).elim hxc h2⟩

/-! ## Lemmas about row dictionaries -/

theorem keys_setCell (row : Row) (k : String) (v : Cell) :
    (setCell row k v).map Prod.fst = row.map Prod.fst := by
  induction row with
  | nil => rfl
  | cons p rest ih =>
    simp only [setCell, List.map_cons] at ih ⊢
    by_cases hp : p.1 = k
    · simp [hp, ih]
    · simp [hp, ih]

theorem keys_row_init (ucols : List String) :
    ((ucols.map fun c => ((c, Cell.str "") : String × Cell)).map Prod.fst) = ucols := by
  induction ucols with
  | nil => rfl
  | cons c rest ih => simp only [List.map_cons, ih]

theorem getCell_setCell_self {row : Row} {k : String} (v : Cell)
    (h : k ∈ row.map Prod.fst) : getCell (setCell row k v) k = some v := by
  induction row with
  | nil => exact absurd h (List.not_mem_nil k)
  | cons p rest ih =>
    by_cases hp : p.1 = k
    · simp [setCell, getCell, hp]
    · have h' : k = p.1 ∨ k ∈ rest.map Prod.fst := by
        rw [List.map_cons] at h
        exact List.mem_cons.mp h
      have hk : k ∈ rest.map Prod.fst := by
        rcases h' with h1 | h1
        · exact absurd h1.symm hp
        · exact h1
      have hbeq : (p.1 == k) = false := beq_eq_false_iff_ne.mpr hp
      simp only [setCell, List.map_cons, if_neg hp, getCell, List.find?] at ih ⊢
      rw [hbeq]
      exact ih hk

theorem getCell_setCell_ne {row : Row} {k k' : String} (v : Cell) (h : k' ≠ k) :
    getCell (setCell row k' v) k = getCell row k := by
  induction row with
  | nil => rfl
  | cons p rest ih =>
    by_cases hp : p.1 = k'
    · have hbeq : (k' == k) = false := beq_eq_false_iff_ne.mpr h
      have hbeq2 : (p.1 == k) = false := beq_eq_false_iff_ne.mpr (hp ▸ h)
      simp only [setCell, List.map_cons, if_pos hp, getCell, List.find?] at ih ⊢
      rw [hbeq, hbeq2]
      exact ih
    · simp only [setCell, List.map_cons, if_neg hp, getCell, List.find?] at ih ⊢
      by_cases hk : p.1 = k
      · rw [beq_iff_eq.mpr hk]
      · rw [beq_eq_false_iff_ne.mpr hk]
        exact ih

/-! ## Lemmas about column resolution -/

theorem colValue_cons_eq {p : String × String} {rest : List (String × String)} {k : String}
    (h : p.1 = k) : colValue (p :: rest) k = p.2 := by
  simp [colValue, h]

theorem colValue_cons_ne {p : String × String} {rest : List (String × String)} {k : String}
    (h : p.1 ≠ k) : colValue (p :: rest) k = colValue rest k := by
  simp [colValue, h]

theorem findMatch_normKey : ∀ {aliases cols : List String} {c : String},
    findMatch aliases cols = some c → ∃ a ∈ aliases, normKey c = normKey a := by
  intro aliases
  induction aliases with
  | nil =>
    intro cols c h
    simp [findMatch] at h
  | cons a rest ih =>
    intro cols c h
    simp only [findMatch] at h
    cases hf : cols.find? (fun col => normEq col a) with
    | some c' =>
      rw [hf] at h
      cases h
      have hp := List.find?_some hf
      refine ⟨a, List.mem_cons_self _ _, ?_⟩
      exact beq_iff_eq.mp hp
    | none =>
      rw [hf] at h
      obtain ⟨a', ha', hn⟩ := ih h
      exact ⟨a', List.mem_cons_of_mem _ ha', hn⟩

theorem findMatch_mem : ∀ {aliases cols : List String} {c : String},
    findMatch aliases cols = some c → c ∈ cols := by
  intro aliases
  induction aliases with
  | nil =>
    intro cols c h
    simp [findMatch] at h
  | cons a rest ih =>
    intro cols c h
    simp only [findMatch] at h
    cases hf : cols.find? (fun col => normEq col a) with
    | some c' =>
      rw [hf] at h
      cases h
      exact List.mem_of_find?_eq_some hf
    | none =>
      rw [hf] at h
      exact ih h

theorem resolveAll_cols_ext : ∀ (catalog : List (String × List String)) (cols : List String),
    ∃ extra, (resolveAll catalog cols).2 = cols ++ extra := by
  intro catalog
  induction catalog with
  | nil =>
    intro cols
    exact ⟨[], (List.append_nil cols).symm⟩
  | cons e rest ih =>
    intro cols
    obtain ⟨logical, aliases⟩ := e
    cases hf : findMatch aliases cols with
    | some c =>
      simpa only [resolveAll, hf] using ih cols
    | none =>
      by_cases hc : cols.contains logical = true
      · simpa only [resolveAll, hf, if_pos hc] using ih cols
      · obtain ⟨ex, hex⟩ := ih (cols ++ [logical])
        refine ⟨logical :: ex, ?_⟩
        simp only [resolveAll, hf, if_neg hc]
        rw [hex, List.append_assoc]
        rfl

theorem resolveAll_forall₂ :
    ∀ (catalog : List (String × List String)) (cols : List String),
      (∀ e ∈ catalog, normKey e.1 ∈ e.2.map normKey) →
      List.Forall₂ (fun e p => p.1 = e.1 ∧ normKey p.2 ∈ e.2.map normKey)
        catalog (resolveAll catalog cols).1 := by
  intro catalog
  induction catalog with
  | nil =>
    intro cols H
    exact List.Forall₂.nil
  | cons e rest ih =>
    intro cols H
    obtain ⟨logical, aliases⟩ := e
    cases hf : findMatch aliases cols with
    | some c =>
      have h1 : normKey c ∈ aliases.map normKey := by
        obtain ⟨a, ha, hn⟩ := findMatch_normKey hf
        rw [hn]
        exact List.mem_map_of_mem _ ha
      simp only [resolveAll, hf]
      exact List.Forall₂.cons ⟨rfl, h1⟩
        (ih cols fun e' he' => H e' (List.mem_cons_of_mem _ he'))
    | none =>
      have h1 : normKey logical ∈ aliases.map normKey :=
        H (logical, aliases) (List.mem_cons_self _ _)
      simp only [resolveAll, hf]
      exact List.Forall₂.cons ⟨rfl, h1⟩
        (ih _ fun e' he' => H e' (List.mem_cons_of_mem _ he'))

theorem resolveAll_value_mem :
    ∀ (catalog : List (String × List String)) (cols : List String)
      (p : String × String), p ∈ (resolveAll catalog cols).1 →
      p.2 ∈ (resolveAll catalog cols).2 := by
  intro catalog
  induction catalog with
  | nil =>
    intro cols p hp
    simp [resolveAll] at hp
  | cons e rest ih =>
    intro cols p hp
    obtain ⟨logical, aliases⟩ := e
    cases hf : findMatch aliases cols with
    | some c =>
      simp only [resolveAll, hf] at hp ⊢
      rcases List.mem_cons.mp hp with rfl | hp'
      · obtain ⟨extra, hex⟩ := resolveAll_cols_ext rest cols
        rw [hex]
        exact List.mem_append.mpr (Or.inl (findMatch_mem hf))
      · exact ih cols p hp'
    | none =>
      by_cases hc : cols.contains logical = true
      · simp only [resolveAll, hf, if_pos hc] at hp ⊢
        rcases List.mem_cons.mp hp with rfl | hp'
        · obtain ⟨extra, hex⟩ := resolveAll_cols_ext rest cols
          rw [hex]
          refine List.mem_append.mpr (Or.inl ?_)
          simpa using hc
        · exact ih cols p hp'
      · simp only [resolveAll, hf, if_neg hc] at hp ⊢
        rcases List.mem_cons.mp hp with rfl | hp'
        · obtain ⟨extra, hex⟩ := resolveAll_cols_ext rest (cols ++ [logical])
          rw [hex]
          refine List.mem_append.mpr (Or.inl ?_)
          exact List.mem_append.mpr (Or.inr (List.mem_singleton.mpr rfl))
        · exact ih (cols ++ [logical]) p hp'

theorem forall₂_mem_right {α β : Type} {R : α → β → Prop} :
    ∀ {l₁ : List α} {l₂ : List β}, List.Forall₂ R l₁ l₂ →
      ∀ {y}, y ∈ l₂ → ∃ a ∈ l₁, R a y := by
  intro l₁ l₂ h
  induction h with
  | nil =>
    intro y hy
    exact absurd hy (List.not_mem_nil _)
  | cons ha htail ih =>
    intro y hy
    rcases List.mem_cons.mp hy with rfl | hy'
    · exact ⟨_, List.mem_cons_self _ _, ha⟩
    · obtain ⟨a, haa, hr⟩ := ih hy'
      exact ⟨a, List.mem_cons_of_mem _ haa, hr⟩

theorem pairwise_of_forall₂ {α β : Type} {R : α → β → Prop} {S : α → α → Prop}
    {T : β → β → Prop} :
    ∀ {l₁ : List α} {l₂ : List β}, List.Forall₂ R l₁ l₂ → List.Pairwise S l₁ →
      (∀ a b x y, R a x → R b y → S a b → T x y) → List.Pairwise T l₂ := by
  intro l₁ l₂ h
  induction h with
  | nil =>
    intro _ _
    exact List.Pairwise.nil
  | @cons a b l₁' l₂' hab htail ih =>
    intro hp himp
    rcases List.pairwise_cons.mp hp with ⟨hs, hp'⟩
    refine List.Pairwise.cons ?_ (ih hp' himp)
    intro y hy
    obtain ⟨a', ha', hr⟩ := forall₂_mem_right htail hy
    exact himp a a' b y hab hr (hs a' ha')

theorem forall₂_colValue {R : (String × List String) → (String × String) → Prop}
    (hkey : ∀ e p, R e p → p.1 = e.1) :
    ∀ {catalog : List (String × List String)} {cmap : List (String × String)},
      List.Forall₂ R catalog cmap → (catalog.map Prod.fst).Nodup →
      ∀ {e}, e ∈ catalog → ∃ p, R e p ∧ p ∈ cmap ∧ colValue cmap e.1 = p.2 := by
  intro catalog cmap h
  induction h with
  | nil =>
    intro _ e he
    exact absurd he (List.not_mem_nil _)
  | @cons a b l₁' l₂' hab htail ih =>
    intro hnd e he
    have hnd' : (l₁'.map Prod.fst).Nodup := by
      rw [List.map_cons] at hnd
      exact hnd.of_cons
    rcases List.mem_cons.mp he with rfl | he'
    · exact ⟨b, hab, List.mem_cons_self _ _, colValue_cons_eq (hkey _ _ hab)⟩
    · obtain ⟨p, hr, hmem, hcv⟩ := ih hnd' he'
      refine ⟨p, hr, List.mem_cons_of_mem _ hmem, ?_⟩
      have h1 : b.1 = a.1 := hkey _ _ hab
      have h2 : a.1 ∉ l₁'.map Prod.fst := by
        rw [List.map_cons] at hnd
        exact (List.nodup_cons.mp hnd).1
      have h3 : e.1 ∈ l₁'.map Prod.fst := List.mem_map_of_mem Prod.fst he'
      rw [colValue_cons_ne, hcv]
      rw [h1]
      intro hEq
      exact h2 (hEq ▸ h3)

theorem resolveAll_canonical_wins :
    ∀ (catalog : List (String × List String)) (cols0 ext : List String),
      (∀ e ∈ catalog, e.2.head? = some e.1) →
      List.Forall₂
        (fun e p => p.1 = e.1 ∧
          ∀ c, cols0.find? (fun col => normEq col e.1) = some c → p.2 = c)
        catalog (resolveAll catalog (cols0 ++ ext)).1 := by
  intro catalog
  induction catalog with
  | nil =>
    intro cols0 ext H
    exact List.Forall₂.nil
  | cons e rest ih =>
    intro cols0 ext H
    obtain ⟨logical, aliases⟩ := e
    have hhead : aliases.head? = some logical := H (logical, aliases) (List.mem_cons_self _ _)
    obtain ⟨as', rfl⟩ : ∃ as', aliases = logical :: as' := by
      cases aliases with
      | nil => simp at hhead
      | cons a as' =>
        have ha : a = logical := by simpa using hhead
        exact ⟨as', by rw [ha]⟩
    have Htail : ∀ e' ∈ rest, e'.2.head? = some e'.1 :=
      fun e' he' => H e' (List.mem_cons_of_mem _ he')
    cases hf : findMatch (logical :: as') (cols0 ++ ext) with
    | some m =>
      simp only [resolveAll, hf]
      refine List.Forall₂.cons ⟨rfl, ?_⟩ (ih cols0 ext Htail)
      intro c hc
      have happ : (cols0 ++ ext).find? (fun col => normEq col logical) = some c := by
        rw [List.find?_append, hc]
        rfl
      simp only [findMatch, happ] at hf
      injection hf with h
      exact h.symm
    | none =>
      simp only [resolveAll, hf]
      refine List.Forall₂.cons ⟨rfl, ?_⟩ ?_
      · intro c hc
        exfalso
        have h0 : (cols0 ++ ext).find? (fun col => normEq col logical) = none := by
          cases hx : (cols0 ++ ext).find? (fun col => normEq col logical) with
          | none => rfl
          | some m' =>
            simp only [findMatch, hx] at hf
            exact hf
        rw [List.find?_append, hc] at h0
        simp at h0
      · by_cases hc2 : (cols0 ++ ext).contains logical = true
        · simp only [hc2, if_true]
          exact ih cols0 ext Htail
        · simp only [hc2, if_false]
          rw [List.append_assoc]
          exact ih cols0 (ext ++ [logical]) Htail

theorem ne_of_disjoint_norm {v w : String} {S T : List (List Char)}
    (hv : normKey v ∈ S) (hw : normKey w ∈ T) (hd : ∀ x ∈ S, x ∉ T) : v ≠ w := by
  intro h
  exact hd _ hv (by rw [h]; exact hw)

theorem colValue_field (columns : List String) (key : String) (aliases : List String)
    (hmem : (key, aliases) ∈ possible_map) :
    ∃ v, colValue (colMapOf columns) key = v ∧ normKey v ∈ aliases.map normKey ∧
      v ∈ outColsOf columns := by
  have hF := resolveAll_forall₂ possible_map columns (by decide)
  have hnd : (possible_map.map Prod.fst).Nodup := by decide
  obtain ⟨p, ⟨hk, hn⟩, hpmem, hcv⟩ := forall₂_colValue (fun e p h => h.1) hF hnd hmem
  refine ⟨p.2, hcv, hn, ?_⟩
  have h2 := resolveAll_value_mem possible_map columns p hpmem
  exact (mem_uniqCols _ [] _).mpr ⟨h2, List.not_mem_nil _⟩

theorem colValue_fields_ne (columns : List String) (k1 : String) (a1 : List String)
    (k2 : String) (a2 : List String)
    (h1 : (k1, a1) ∈ possible_map) (h2 : (k2, a2) ∈ possible_map)
    (hd : ∀ x ∈ a1.map normKey, x ∉ a2.map normKey) :
    colValue (colMapOf columns) k1 ≠ colValue (colMapOf columns) k2 := by
  obtain ⟨v1, hv1, hn1, _⟩ := colValue_field columns k1 a1 h1
  obtain ⟨v2, hv2, hn2, _⟩ := colValue_field columns k2 a2 h2
  rw [hv1, hv2]
  exact ne_of_disjoint_norm hn1 hn2 hd

/-! ## Lemmas about row construction -/

theorem getCell_buildRow_shot (columns : List String) (scene_num : Nat)
    (heading char_list : String) (n : Nat) (kind btext : String) :
    getCell
      (buildRow (outColsOf columns) (colMapOf columns) scene_num heading char_list n kind btext)
      (colValue (colMapOf columns) "Shot #") = some (Cell.num n) := by
  have neType := colValue_fields_ne columns "Shot Type" ["Shot Type", "Type"]
    "Shot #" ["Shot #", "Shot Number", "Shot"] (by decide) (by decide) (by decide)
  have neAngle := colValue_fields_ne columns "Angle" ["Angle"]
    "Shot #" ["Shot #", "Shot Number", "Shot"] (by decide) (by decide) (by decide)
  have neMove := colValue_fields_ne columns "Movement" ["Movement", "Move"]
    "Shot #" ["Shot #", "Shot Number", "Shot"] (by decide) (by decide) (by decide)
  have neLens := colValue_fields_ne columns "Lens" ["Lens"]
    "Shot #" ["Shot #", "Shot Number", "Shot"] (by decide) (by decide) (by decide)
  have neLoc := colValue_fields_ne columns "Location" ["Location"]
    "Shot #" ["Shot #", "Shot Number", "Shot"] (by decide) (by decide) (by decide)
  have neChars := colValue_fields_ne columns "Characters" ["Characters", "Cast"]
    "Shot #" ["Shot #", "Shot Number", "Shot"] (by decide) (by decide) (by decide)
  have neNotes := colValue_fields_ne columns "Notes" ["Notes"]
    "Shot #" ["Shot #", "Shot Number", "Shot"] (by decide) (by decide) (by decide)
  obtain ⟨v4, hv4, _, hin4⟩ := colValue_field columns "Shot #" ["Shot #", "Shot Number", "Shot"]
    (by decide)
  simp only [buildRow]
  rw [getCell_setCell_ne _ neNotes, getCell_setCell_ne _ neChars, getCell_setCell_ne _ neLoc,
      getCell_setCell_ne _ neLens, getCell_setCell_ne _ neMove, getCell_setCell_ne _ neAngle,
      getCell_setCell_ne _ neType]
  apply getCell_setCell_self
  rw [keys_setCell, keys_setCell, keys_setCell, keys_row_init, hv4]
  exact hin4

theorem getCell_buildRow_loc (columns : List String) (scene_num : Nat)
    (heading char_list : String) (n : Nat) (kind btext : String) :
    getCell
      (buildRow (outColsOf columns) (colMapOf columns) scene_num heading char_list n kind btext)
      (colValue (colMapOf columns) "Location") = some (Cell.str (locFromHeading heading)) := by
  have neChars := colValue_fields_ne columns "Characters" ["Characters", "Cast"]
    "Location" ["Location"] (by decide) (by decide) (by decide)
  have neNotes := colValue_fields_ne columns "Notes" ["Notes"]
    "Location" ["Location"] (by decide) (by decide) (by decide)
  obtain ⟨v10, hv10, _, hin10⟩ := colValue_field columns "Location" ["Location"] (by decide)
  simp only [buildRow]
  rw [getCell_setCell_ne _ neNotes, getCell_setCell_ne _ neChars]
  apply getCell_setCell_self
  rw [keys_setCell, keys_setCell, keys_setCell, keys_setCell, keys_setCell, keys_setCell,
      keys_setCell, keys_setCell, keys_row_init, hv10]
  exact hin10

theorem beatsRowsAux_length (ucols : List String) (cmap : List (String × String))
    (sn : Nat) (hdg cl : String) :
    ∀ (beats : List (String × String)) (n : Nat),
      (beatsRowsAux ucols cmap sn hdg cl beats n).length = beats.length := by
  intro beats
  induction beats with
  | nil =>
    intro n
    rfl
  | cons b rest ih =>
    intro n
    obtain ⟨kind, btext⟩ := b
    simp [beatsRowsAux, ih]

theorem sceneBlock_length (columns : List String) (sc : Scene) :
    (sceneBlock columns sc).length = sc.beats.length :=
  beatsRowsAux_length _ _ _ _ _ sc.beats 1

theorem beatsRowsAux_get_shot (columns : List String) (sn : Nat) (hdg cl : String) :
    ∀ (beats : List (String × String)) (n j : Nat)
      (hj : j < (beatsRowsAux (outColsOf columns) (colMapOf columns) sn hdg cl beats n).length),
      getCell ((beatsRowsAux (outColsOf columns) (colMapOf columns) sn hdg cl beats n).get ⟨j, hj⟩)
        (colValue (colMapOf columns) "Shot #") = some (Cell.num (n + j)) := by
  intro beats
  induction beats with
  | nil =>
    intro n j hj
    simp [beatsRowsAux] at hj
  | cons b rest ih =>
    intro n j hj
    obtain ⟨kind, btext⟩ := b
    cases j with
    | zero =>
      simpa only [beatsRowsAux, List.get, Nat.add_zero] using
        getCell_buildRow_shot columns sn hdg cl n kind btext
    | succ j' =>
      have hj' : j' < (beatsRowsAux (outColsOf columns) (colMapOf columns)
          sn hdg cl rest (n + 1)).length := by
        rw [beatsRowsAux_length] at hj ⊢
        exact Nat.lt_of_succ_lt_succ (by simpa using hj)
      have he : n + 1 + j' = n + (j' + 1) := by omega
      have hr := ih (n + 1) j' hj'
      rw [he] at hr
      simpa only [beatsRowsAux, List.get] using hr

theorem beatsRowsAux_get_loc (columns : List String) (sn : Nat) (hdg cl : String) :
    ∀ (beats : List (String × String)) (n j : Nat)
      (hj : j < (beatsRowsAux (outColsOf columns) (colMapOf columns) sn hdg cl beats n).length),
      getCell ((beatsRowsAux (outColsOf columns) (colMapOf columns) sn hdg cl beats n).get ⟨j, hj⟩)
        (colValue (colMapOf columns) "Location") = some (Cell.str (locFromHeading hdg)) := by
  intro beats
  induction beats with
  | nil =>
    intro n j hj
    simp [beatsRowsAux] at hj
  | cons b rest ih =>
    intro n j hj
    obtain ⟨kind, btext⟩ := b
    cases j with
    | zero =>
      simpa only [beatsRowsAux, List.get] using
        getCell_buildRow_loc columns sn hdg cl n kind btext
    | succ j' =>
      have hj' : j' < (beatsRowsAux (outColsOf columns) (colMapOf columns)
          sn hdg cl rest (n + 1)).length := by
        rw [beatsRowsAux_length] at hj ⊢
        exact Nat.lt_of_succ_lt_succ (by simpa using hj)
      simpa only [beatsRowsAux, List.get] using ih (n + 1) j' hj'

/-! ## Lemmas about the parser state machine -/

theorem flush_fields (buf : List String) (sc : Scene) :
    (flush_action_as_beat buf sc).scene_number = sc.scene_number ∧
    (flush_action_as_beat buf sc).scene_heading = sc.scene_heading ∧
    (flush_action_as_beat buf sc).characters = sc.characters := by
  simp only [flush_action_as_beat]
  split
  · exact ⟨rfl, rfl, rfl⟩
  · split
    · exact ⟨rfl, rfl, rfl⟩
    · exact ⟨rfl, rfl, rfl⟩

theorem addChar_fields (sc : Scene) (name : String) :
    (addChar sc name).scene_number = sc.scene_number ∧
    (addChar sc name).scene_heading = sc.scene_heading ∧
    (addChar sc name).beats = sc.beats := by
  simp only [addChar]
  split
  · exact ⟨rfl, rfl, rfl⟩
  · exact ⟨rfl, rfl, rfl⟩

theorem range1_concat (n : Nat) :
    List.range' 1 n ++ [n + 1] = List.range' 1 (n + 1) := by
  have e : 1 + 1 * n = n + 1 := by omega
  rw [List.range'_concat, e]

theorem totalScenes_step (st : PState) (raw : String) :
    totalScenes (step st raw) =
      totalScenes st + (if is_scene_heading (rstripNL raw) then 1 else 0) := by
  by_cases hh : is_scene_heading (rstripNL raw) = true
  · cases hsc : st.current_scene with
    | none => simp [step, hh, totalScenes, closeScene, hsc]
    | some sc => simp [step, hh, totalScenes, closeScene, hsc]
  · cases hsc : st.current_scene with
    | none => simp [step, hh, totalScenes, hsc]
    | some sc =>
      by_cases hb : pyStrip (rstripNL raw) = ""
      · simp [step, hh, hsc, hb, totalScenes]
      · by_cases hcue : is_character_cue (rstripNL raw) = true
        · simp [step, hh, hsc, hb, hcue, totalScenes]
        · cases hch : st.current_character with
          | some ch => simp [step, hh, hsc, hb, hcue, hch, totalScenes]
          | none =>
            by_cases htr : is_transition (rstripNL raw) = true
            · simp [step, hh, hsc, hb, hcue, hch, htr, totalScenes]
            · simp [step, hh, hsc, hb, hcue, hch, htr, totalScenes]

theorem totalScenes_foldl :
    ∀ (lines : List String) (st : PState),
      totalScenes (lines.foldl step st) =
        totalScenes st + lines.countP (fun l => is_scene_heading (rstripNL l)) := by
  intro lines
  induction lines with
  | nil =>
    intro st
    simp
  | cons l rest ih =>
    intro st
    rw [List.foldl_cons, ih, totalScenes_step, List.countP_cons]
    by_cases hp : is_scene_heading (rstripNL l) = true
    · simp only [hp, if_true]
      omega
    · simp only [hp, if_false]
      omega

theorem numInv_step (st : PState) (raw : String) (h : NumInv st) : NumInv (step st raw) := by
  obtain ⟨h1, h2⟩ := h
  by_cases hh : is_scene_heading (rstripNL raw) = true
  · cases hsc : st.current_scene with
    | none =>
      refine ⟨?_, ?_⟩
      · simpa [step, hh, closeScene, hsc] using h1
      · intro sc hsc'
        simp only [step, hh, if_true, closeScene, hsc] at hsc' ⊢
        cases hsc'
        rfl
    | some sc0 =>
      refine ⟨?_, ?_⟩
      · simp only [step, hh, if_true, closeScene, hsc]
        rw [List.map_append, h1]
        have hk : (flush_action_as_beat st.buffer_action sc0).scene_number =
            sc0.scene_number := (flush_fields _ _).1
        simp only [List.map_cons, List.map_nil, hk, h2 sc0 hsc, List.length_append,
          List.length_cons, List.length_nil]
        exact range1_concat st.scenes.length
      · intro sc hsc'
        simp only [step, hh, if_true, closeScene, hsc] at hsc' ⊢
        cases hsc'
        rfl
  · cases hsc : st.current_scene with
    | none =>
      have hst : step st raw = st := by simp [step, hh, hsc]
      rw [hst]
      exact ⟨h1, h2⟩
    | some sc0 =>
      by_cases hb : pyStrip (rstripNL raw) = ""
      · refine ⟨by simpa [step, hh, hsc, hb] using h1, ?_⟩
        intro sc hsc'
        simp only [step, hh, hsc, hb, if_true, if_false] at hsc' ⊢
        cases hsc'
        rw [(flush_fields _ _).1]
        exact h2 sc0 hsc
      · by_cases hcue : is_character_cue (rstripNL raw) = true
        · refine ⟨by simpa [step, hh, hsc, hb, hcue] using h1, ?_⟩
          intro sc hsc'
          simp only [step, hh, hsc, hb, hcue, if_true, if_false] at hsc' ⊢
          cases hsc'
          rw [(addChar_fields _ _).1, (flush_fields _ _).1]
          exact h2 sc0 hsc
        · cases hch : st.current_character with
          | some ch =>
            refine ⟨by simpa [step, hh, hsc, hb, hcue, hch] using h1, ?_⟩
            intro sc hsc'
            simp only [step, hh, hsc, hb, hcue, hch, if_true, if_false] at hsc' ⊢
            cases hsc'
            exact h2 sc0 hsc
          | none =>
            by_cases htr : is_transition (rstripNL raw) = true
            · refine ⟨by simpa [step, hh, hsc, hb, hcue, hch, htr] using h1, ?_⟩
              intro sc hsc'
              simp only [step, hh, hsc, hb, hcue, hch, htr, if_true, if_false] at hsc' ⊢
              cases hsc'
              rw [(flush_fields _ _).1]
              exact h2 sc0 hsc
            · refine ⟨by simpa [step, hh, hsc, hb, hcue, hch, htr] using h1, ?_⟩
              intro sc hsc'
              simp [step, hh, hsc, hb, hcue, hch, htr] at hsc' ⊢
              subst hsc'
              exact h2 sc0 hsc

theorem numInv_foldl :
    ∀ (lines : List String) (st : PState), NumInv st → NumInv (lines.foldl step st) := by
  intro lines
  induction lines with
  | nil =>
    intro st h
    exact h
  | cons l rest ih =>
    intro st h
    rw [List.foldl_cons]
    exact ih _ (numInv_step st l h)

theorem parse_lines_numbers (lines : List String) :
    (parse_lines lines).map Scene.scene_number = List.range' 1 (parse_lines lines).length ∧
    (parse_lines lines).length = lines.countP (fun l => is_scene_heading (rstripNL l)) := by
  have hInv : NumInv (lines.foldl step initState) := by
    refine numInv_foldl lines initState ⟨rfl, ?_⟩
    intro sc h
    cases h
  obtain ⟨h1, h2⟩ := hInv
  have hTot := totalScenes_foldl lines initState
  have hTot0 : totalScenes initState = 0 := rfl
  rw [hTot0, Nat.zero_add] at hTot
  unfold parse_lines
  cases hcur : (lines.foldl step initState).current_scene with
  | none =>
    have hTotEq : totalScenes (lines.foldl step initState) =
        (lines.foldl step initState).scenes.length := by
      unfold totalScenes
      rw [hcur]
      rfl
    constructor
    · simpa [closeScene, hcur] using h1
    · simp only [closeScene, hcur]
      rw [← hTotEq, hTot]
  | some sc0 =>
    have hTotEq : totalScenes (lines.foldl step initState) =
        (lines.foldl step initState).scenes.length + 1 := by
      unfold totalScenes
      rw [hcur]
    constructor
    · simp only [closeScene, hcur]
      rw [List.map_append, h1]
      have hk : (flush_action_as_beat (lines.foldl step initState).buffer_action sc0).scene_number =
          sc0.scene_number := (flush_fields _ _).1
      simp only [List.map_cons, List.map_nil, hk, h2 sc0 hcur, List.length_append,
        List.length_cons, List.length_nil]
      exact range1_concat (lines.foldl step initState).scenes.length
    · simp only [closeScene, hcur, List.length_append, List.length_cons, List.length_nil]
      rw [← hTot, hTotEq]

theorem mem_of_mem_pyStripL {s : List Char} {c : Char} (h : c ∈ pyStripL s) : c ∈ s := by
  unfold pyStripL List.rdropWhile at h
  rw [List.mem_reverse] at h
  have h2 := List.Sublist.mem h (List.dropWhile_sublist _)
  rw [List.mem_reverse] at h2
  exact List.Sublist.mem h2 (List.dropWhile_sublist _)

theorem joinPieces_cons (p : List Char) (ps : List (List Char)) :
    ∃ r, joinPieces (p :: ps) = p ++ r := by
  cases ps with
  | nil => exact ⟨[], (List.append_nil p).symm⟩
  | cons q qs => exact ⟨' ' :: joinPieces (q :: qs), rfl⟩

theorem flush_new_beat_ok {buf : List String}
    (h : String.mk (joinPieces (actionPieces buf)) ≠ "") :
    pyStrip (String.mk (joinPieces (actionPieces buf))) ≠ "" := by
  rw [pyStrip_ne_empty_iff]
  cases hp : actionPieces buf with
  | nil =>
    exfalso
    apply h
    rw [hp]
    rfl
  | cons p ps =>
    have hmem : p ∈ actionPieces buf := by
      rw [hp]
      exact List.mem_cons_self _ _
    have hpair : ¬ p.isEmpty = true ∧ ∃ l ∈ buf, pyStripL l.data = p := by
      unfold actionPieces at hmem
      rcases List.mem_filter.mp hmem with ⟨hmap, hfl⟩
      rcases List.mem_map.mp hmap with ⟨l, hl, hlp⟩
      exact ⟨by simpa using hfl, l, hl, hlp⟩
    obtain ⟨hne, l, hl, hlp⟩ := hpair
    have hpne : pyStripL l.data ≠ [] := by
      rw [hlp]
      intro hx
      rw [hx] at hne
      exact hne rfl
    obtain ⟨c, hc, hws⟩ := stripL_exists_not_space hpne
    rw [hlp] at hc
    obtain ⟨r, hr⟩ := joinPieces_cons p ps
    refine strip_ne_nil_of_witness ?_ hws
    show c ∈ joinPieces (p :: ps)
    rw [hr]
    exact List.mem_append.mpr (Or.inl hc)

theorem beatsOK_flush {buf : List String} {sc : Scene} (h : beatsOK sc.beats) :
    beatsOK (flush_action_as_beat buf sc).beats := by
  by_cases hb : buf.isEmpty = true
  · simpa [flush_action_as_beat, hb] using h
  · by_cases ht : String.mk (joinPieces (actionPieces buf)) = ""
    · simpa [flush_action_as_beat, hb, ht] using h
    · have hbeats : (flush_action_as_beat buf sc).beats =
          sc.beats ++ [("Action", String.mk (joinPieces (actionPieces buf)))] := by
        simp [flush_action_as_beat, hb, ht]
      intro b hbm
      rw [hbeats] at hbm
      rcases List.mem_append.mp hbm with h1 | h1
      · exact h b h1
      · rcases List.mem_singleton.mp h1 with rfl
        exact flush_new_beat_ok ht

theorem pyStrip_dialogue_ne (ch line : String) (h : pyStrip line ≠ "") :
    pyStrip (ch ++ ": " ++ pyStrip line) ≠ "" := by
  rw [pyStrip_ne_empty_iff] at h ⊢
  obtain ⟨c, hc, hws⟩ := stripL_exists_not_space h
  refine strip_ne_nil_of_witness ?_ hws
  show c ∈ (ch ++ ": " ++ pyStrip line).data
  rw [String.data_append]
  exact List.mem_append.mpr (Or.inr hc)

theorem beatsInv_step (st : PState) (raw : String) (h : BeatsInv st) :
    BeatsInv (step st raw) := by
  obtain ⟨h1, h2⟩ := h
  by_cases hh : is_scene_heading (rstripNL raw) = true
  · refine ⟨?_, ?_⟩
    · intro sc hscm
      simp only [step, hh, if_true] at hscm
      cases hcur : st.current_scene with
      | none =>
        simp only [closeScene, hcur] at hscm
        exact h1 sc hscm
      | some sc0 =>
        simp only [closeScene, hcur] at hscm
        rcases List.mem_append.mp hscm with hm | hm
        · exact h1 sc hm
        · rcases List.mem_singleton.mp hm with rfl
          exact beatsOK_flush (h2 sc0 hcur)
    · intro sc hsc'
      simp only [step, hh, if_true] at hsc'
      cases hsc'
      intro b hb
      exact absurd hb (List.not_mem_nil b)
  · cases hcur : st.current_scene with
    | none =>
      have hst : step st raw = st := by simp [step, hh, hcur]
      rw [hst]
      exact ⟨h1, h2⟩
    | some sc0 =>
      by_cases hb : pyStrip (rstripNL raw) = ""
      · refine ⟨?_, ?_⟩
        · intro sc hscm
          simp only [step, hh, hcur, hb, if_true, if_false] at hscm
          exact h1 sc hscm
        · intro sc hsc'
          simp only [step, hh, hcur, hb, if_true, if_false] at hsc'
          cases hsc'
          exact beatsOK_flush (h2 sc0 hcur)
      · by_cases hcue : is_character_cue (rstripNL raw) = true
        · refine ⟨?_, ?_⟩
          · intro sc hscm
            simp only [step, hh, hcur, hb, hcue, if_true, if_false] at hscm
            exact h1 sc hscm
          · intro sc hsc'
            simp only [step, hh, hcur, hb, hcue, if_true, if_false] at hsc'
            cases hsc'
            have he := (addChar_fields (flush_action_as_beat st.buffer_action sc0)
              (pyStrip (rstripNL raw))).2.2
            intro b hbm
            rw [he] at hbm
            exact beatsOK_flush (h2 sc0 hcur) b hbm
        · cases hch : st.current_character with
          | some ch =>
            refine ⟨?_, ?_⟩
            · intro sc hscm
              simp only [step, hh, hcur, hb, hcue, hch, if_true, if_false] at hscm
              exact h1 sc hscm
            · intro sc hsc'
              have hstep : (step st raw).current_scene = some
                  { sc0 with beats :=
                      sc0.beats ++ [("Dialogue", ch ++ ": " ++ pyStrip (rstripNL raw))] } := by
                simp [step, hh, hcur, hb, hcue, hch]
              rw [hstep] at hsc'
              cases hsc'
              intro b hbm
              rcases List.mem_append.mp hbm with hm | hm
              · exact h2 sc0 hcur b hm
              · rcases List.mem_singleton.mp hm with rfl
                exact pyStrip_dialogue_ne ch (rstripNL raw) hb
          | none =>
            by_cases htr : is_transition (rstripNL raw) = true
            · refine ⟨?_, ?_⟩
              · intro sc hscm
                simp only [step, hh, hcur, hb, hcue, hch, htr, if_true, if_false] at hscm
                exact h1 sc hscm
              · intro sc hsc'
                simp only [step, hh, hcur, hb, hcue, hch, htr, if_true, if_false] at hsc'
                cases hsc'
                exact beatsOK_flush (h2 sc0 hcur)
            · refine ⟨?_, ?_⟩
              · intro sc hscm
                simp only [step, hh, hcur, hb, hcue, hch, htr, if_true, if_false] at hscm
                exact h1 sc hscm
              · intro sc hsc'
                simp [step, hh, hcur, hb, hcue, hch, htr] at hsc'
                subst hsc'
                exact h2 sc0 hcur

theorem beatsInv_foldl :
    ∀ (lines : List String) (st : PState), BeatsInv st → BeatsInv (lines.foldl step st) := by
  intro lines
  induction lines with
  | nil =>
    intro st h
    exact h
  | cons l rest ih =>
    intro st h
    rw [List.foldl_cons]
    exact ih _ (beatsInv_step st l h)

theorem parse_lines_beatsOK (lines : List String) :
    ∀ sc ∈ parse_lines lines, beatsOK sc.beats := by
  have hInv : BeatsInv (lines.foldl step initState) := by
    refine beatsInv_foldl lines initState ⟨?_, ?_⟩
    · intro sc hsc
      exact absurd hsc (List.not_mem_nil sc)
    · intro sc h
      cases h
  obtain ⟨h1, h2⟩ := hInv
  intro sc hsc
  unfold parse_lines at hsc
  cases hcur : (lines.foldl step initState).current_scene with
  | none =>
    simp only [closeScene, hcur] at hsc
    exact h1 sc hsc
  | some sc0 =>
    simp only [closeScene, hcur] at hsc
    rcases List.mem_append.mp hsc with hm | hm
    · exact h1 sc hm
    · rcases List.mem_singleton.mp hm with rfl
      exact beatsOK_flush (h2 sc0 hcur)

theorem flush_blank_eq (buf : List String) (sc : Scene)
    (h : ∀ l ∈ buf, pyStrip l = "") : flush_action_as_beat buf sc = sc := by
  by_cases hb : buf.isEmpty = true
  · simp [flush_action_as_beat, hb]
  · have hpieces : actionPieces buf = [] := by
      unfold actionPieces
      rw [List.filter_eq_nil_iff]
      intro p hp
      obtain ⟨l, hl, hlp⟩ := List.mem_map.mp hp
      have h0 : pyStripL l.data = [] := (mk_eq_empty_iff _).mp (h l hl)
      rw [← hlp]
      simp [h0]
    simp [flush_action_as_beat, hb, hpieces, joinPieces]

theorem rows_length_eq (scenes : List Scene) (columns : List String) :
    ((scenes.map (sceneBlock columns)).flatten).length =
      (scenes.map (fun sc => sc.beats.length)).sum := by
  rw [List.length_flatten, List.map_map]
  exact congrArg List.sum (List.map_congr_left fun sc _ => sceneBlock_length columns sc)

/-! ## Claim theorems -/

/-- Claim C1: for every input document text and every target schema, the number
of rows produced by `build_shotlist_from_scenes` on the scenes returned by
`parse_fountain_text` equals the total number of Beats across all those
Scenes — exactly one row per Beat. -/
theorem row_count_eq_total_beats (text : String) (columns : List String) :
    (build_shotlist_from_scenes (parse_fountain_text text) columns).rows.length =
      ((parse_fountain_text text).map (fun sc => sc.beats.length)).sum :=
  rows_length_eq _ _

/-- Claim C2: the rows are the concatenation of per-scene blocks, and within
each scene's block the cell at the column resolved for the logical field
`Shot #` is 1 for the first Beat and increases by exactly 1 per subsequent
Beat, independently of the numbering in other Scenes. -/
theorem shot_numbers_reset_per_scene (columns : List String) (scenes : List Scene) :
    (build_shotlist_from_scenes scenes columns).rows =
      (scenes.map (sceneBlock columns)).flatten ∧
    ∀ sc ∈ scenes, ∀ (j : Nat) (hj : j < (sceneBlock columns sc).length),
      getCell ((sceneBlock columns sc).get ⟨j, hj⟩) (colValue (colMapOf columns) "Shot #") =
        some (Cell.num (j + 1)) := by
  refine ⟨rfl, ?_⟩
  intro sc _ j hj
  have hr := beatsRowsAux_get_shot columns sc.scene_number sc.scene_heading
    (renderChars sc.characters) sc.beats 1 j hj
  have he : 1 + j = j + 1 := by omega
  rw [he] at hr
  exact hr

/-- Witness for the Shot numbering claim at a concrete two-beat scene. -/
theorem shot_numbers_reset_witness :
    getCell ((sceneBlock [] demoScene).get ⟨1, by decide⟩)
      (colValue (colMapOf []) "Shot #") = some (Cell.num 2) :=
  (shot_numbers_reset_per_scene [] [demoScene]).2 demoScene (by decide) 1 (by decide)

/-- Claim C3 counterexample: for the heading `INT/EXT. KITCHEN - DAY` the code
strips only the `INT` token (the first regex alternative that matches, with
`\s*` requiring no whitespace), so the Location cell is `/EXT. KITCHEN`, not
`KITCHEN` as the claim's whole-token stripping predicts. -/
theorem location_int_ext_cex :
    ((build_shotlist_from_scenes
        (parse_fountain_text "INT/EXT. KITCHEN - DAY\nJohn walks in.") []).rows).map
      (fun r => getCell r "Location") = [some (Cell.str "/EXT. KITCHEN")] ∧
    ("/EXT. KITCHEN" : String) ≠ "KITCHEN" := by decide

/-- Claim C3 (amended): each row's Location cell is computed from the scene
heading by removing the first of the tokens INT, EXT, INT/EXT, I/E that
matches case-insensitively as a prefix (tried in that order), plus an
optional period and an optional whitespace run, then taking the trimmed
segment before the first hyphen; for a heading beginning with `INT/EXT` only
`INT` is stripped, so `INT/EXT. KITCHEN - DAY` yields `/EXT. KITCHEN`, while
`INT. KITCHEN - DAY` yields `KITCHEN`. -/
theorem location_cell_from_heading (columns : List String) (scenes : List Scene) :
    ((build_shotlist_from_scenes scenes columns).rows =
        (scenes.map (sceneBlock columns)).flatten ∧
      ∀ sc ∈ scenes, ∀ (j : Nat) (hj : j < (sceneBlock columns sc).length),
        getCell ((sceneBlock columns sc).get ⟨j, hj⟩) (colValue (colMapOf columns) "Location") =
          some (Cell.str (locFromHeading sc.scene_heading))) ∧
    locFromHeading "INT/EXT. KITCHEN - DAY" = "/EXT. KITCHEN" ∧
    locFromHeading "INT. KITCHEN - DAY" = "KITCHEN" := by
  refine ⟨⟨rfl, ?_⟩, by decide, by decide⟩
  intro sc _ j hj
  exact beatsRowsAux_get_loc columns sc.scene_number sc.scene_heading
    (renderChars sc.characters) sc.beats 1 j hj

/-- Witness for the Location claim at a concrete scene. -/
theorem location_cell_witness :
    getCell ((sceneBlock [] demoScene).get ⟨0, by decide⟩)
      (colValue (colMapOf []) "Location") = some (Cell.str (locFromHeading "INT. A - DAY")) :=
  (location_cell_from_heading [] [demoScene]).1.2 demoScene (by decide) 0 (by decide)

/-- Claim C4 counterexample: a line whose trimmed content is exactly `TO:` is
NOT matched by `TRANSITION_RE` (the regex requires at least one `[A-Z \t]`
character before `TO:`), so it is appended to the action buffer and its text
ends up inside the Action beat instead of flushing it. -/
theorem bare_to_contributes_text :
    (parse_fountain_text "INT. A - DAY\nHe runs.\nTO:").map Scene.beats =
      [[("Action", "He runs. TO:")]] ∧
    is_transition "TO:" = false := by decide

/-- Claim C4 (amended): inside an open scene with no active speaker, a
non-heading line matching the transition pattern — at least one uppercase
letter, space or tab followed by `TO:` — flushes the pending action buffer
into an Action beat and contributes no text of its own; a bare `TO:` line
does not match the pattern (and is buffered as action text instead). -/
theorem transition_line_flushes (st : PState) (sc : Scene) (line : String)
    (hline : rstripNL line = line)
    (hsc : st.current_scene = some sc)
    (hch : st.current_character = none)
    (hhead : is_scene_heading line = false)
    (htr : is_transition line = true) :
    step st line = { st with current_scene := some (flush_action_as_beat st.buffer_action sc),
                             buffer_action := [] } ∧
    is_transition "TO:" = false := by
  refine ⟨?_, by decide⟩
  have hblank : pyStrip line ≠ "" := by
    have htr' : transitionCore (pyStripL line.data) = true := htr
    intro h0
    have hdata : pyStripL line.data = [] := (mk_eq_empty_iff _).mp h0
    rw [hdata] at htr'
    exact absurd htr' (by decide)
  have hcue : is_character_cue line = false := by
    have htr' : transitionCore (pyStripL line.data) = true := htr
    unfold is_character_cue cueCore
    rw [htr']
    simp
  simp [step, hline, hhead, hsc, hblank, hcue, hch, htr]

/-- Witness for the transition-flush claim at the concrete line `CUT TO:`. -/
theorem transition_line_flushes_witness :
    step { scenes := [], current_scene := some demoScene, buffer_action := ["He runs."],
           current_character := none } "CUT TO:" =
      { scenes := [], current_scene := some (flush_action_as_beat ["He runs."] demoScene),
        buffer_action := [], current_character := none } ∧
    is_transition "TO:" = false :=
  transition_line_flushes
    { scenes := [], current_scene := some demoScene, buffer_action := ["He runs."],
      current_character := none } demoScene "CUT TO:" (by decide) rfl rfl
    (by decide) (by decide)

/-- Claim C5 counterexample: with target schema `["Heading", "Scene Heading"]`
the logical field `Scene Heading` resolves to the canonical `Scene Heading`
column, not to the non-canonical alias `Heading`: the canonical name is the
first alias tried, not the last. -/
theorem canonical_name_first_cex :
    colValue (colMapOf ["Heading", "Scene Heading"]) "Scene Heading" = "Scene Heading" ∧
    ("Scene Heading" : String) ≠ "Heading" := by decide

/-- Claim C5 (amended): each logical field's own canonical name is the FIRST,
highest-priority alias in its list (and also the fallback when nothing
matches), so whenever the schema contains a column whose trimmed, case-folded
name equals the canonical name, that column wins the resolution for the
field. -/
theorem canonical_alias_priority (columns : List String) :
    (∀ e ∈ possible_map, e.2.head? = some e.1) ∧
    ∀ (key : String) (aliases : List String), (key, aliases) ∈ possible_map →
      ∀ c, columns.find? (fun col => normEq col key) = some c →
        colValue (colMapOf columns) key = c := by
  refine ⟨by decide, ?_⟩
  intro key aliases hka c hc
  have hW := resolveAll_canonical_wins possible_map columns [] (by decide)
  rw [List.append_nil] at hW
  have hnd : (possible_map.map Prod.fst).Nodup := by decide
  obtain ⟨p, ⟨hk, hwin⟩, hpmem, hcv⟩ := forall₂_colValue (fun e p h => h.1) hW hnd hka
  exact hcv.trans (hwin c hc)

/-- Witness for the canonical-alias-priority claim at a concrete schema. -/
theorem canonical_alias_priority_witness :
    colValue (colMapOf ["scene heading ", "x"]) "Scene Heading" = "scene heading " :=
  (canonical_alias_priority ["scene heading ", "x"]).2 "Scene Heading"
    ["Scene Heading", "Heading", "Slugline"] (by decide) "scene heading " (by decide)

/-- Claim C6: for every target schema the resolved column mapping is
injective — no two of the 12 logical fields resolve to the same output
column name. -/
theorem colmap_injective (columns : List String) :
    List.Pairwise (fun p q : String × String => p.2 ≠ q.2) (colMapOf columns) := by
  have hF := resolveAll_forall₂ possible_map columns (by decide)
  have hP : List.Pairwise
      (fun e f : String × List String => ∀ x ∈ e.2.map normKey, x ∉ f.2.map normKey)
      possible_map := by decide
  exact pairwise_of_forall₂ hF hP fun a b x y hx hy hs => ne_of_disjoint_norm hx.2 hy.2 hs

/-- Claim C7: the parser returns exactly one Scene per recognized scene
heading, numbered 1..N in document order; with zero recognized headings it
returns no Scenes and the builder produces no rows. -/
theorem scene_numbers_sequential (text : String) (columns : List String) :
    (parse_fountain_text text).map Scene.scene_number =
      List.range' 1 (parse_fountain_text text).length ∧
    (parse_fountain_text text).length = countSceneHeadings text ∧
    (countSceneHeadings text = 0 →
      parse_fountain_text text = [] ∧
      (build_shotlist_from_scenes (parse_fountain_text text) columns).rows = []) := by
  have h := parse_lines_numbers (splitlines text)
  refine ⟨h.1, h.2, ?_⟩
  intro h0
  have hlen : (parse_fountain_text text).length = 0 := h.2.trans h0
  have hnil : parse_fountain_text text = [] := List.length_eq_zero.mp hlen
  refine ⟨hnil, ?_⟩
  rw [hnil]
  rfl

/-- Witness for the scene-numbering claim at a heading-free document. -/
theorem scene_numbers_sequential_witness :
    parse_fountain_text "hello world" = [] ∧
    (build_shotlist_from_scenes (parse_fountain_text "hello world") []).rows = [] :=
  (scene_numbers_sequential "hello world" []).2.2 (by decide)

/-- Claim C8: every Beat of every parsed Scene has nonempty text after
trimming, and flushing an action buffer whose lines are all blank after
trimming produces no Beat at all. -/
theorem beats_nonempty (text : String) :
    (∀ sc ∈ parse_fountain_text text, ∀ b ∈ sc.beats, pyStrip b.2 ≠ "") ∧
    ∀ (buf : List String) (sc : Scene), (∀ l ∈ buf, pyStrip l = "") →
      flush_action_as_beat buf sc = sc := by
  refine ⟨?_, flush_blank_eq⟩
  intro sc hsc b hb
  exact parse_lines_beatsOK (splitlines text) sc hsc b hb

/-- Witness for the nonempty-beat claim at the demo document. -/
theorem beats_nonempty_witness :
    pyStrip "John walks in." ≠ "" ∧
    flush_action_as_beat ["   ", ""] demoScene = demoScene := by
  refine ⟨?_, (beats_nonempty "x").2 ["   ", ""] demoScene (by decide)⟩
  exact (beats_nonempty demoText).1
    ⟨1, "INT. KITCHEN - DAY", [("Action", "John walks in."), ("Dialogue", "JOHN: Hello.")],
      ["JOHN"]⟩ (by decide) ("Action", "John walks in.") (by decide)

/-- Claim C9: resolving against the empty target schema yields exactly the
12 logical-field catalog names, in catalog order. -/
theorem empty_schema_default_columns (scenes : List Scene) :
    (build_shotlist_from_scenes scenes []).uniq_cols =
      ["Scene #", "Scene Heading", "Beat/Action", "Shot #", "Shot Type", "Angle",
       "Movement", "Lens", "Duration (s)", "Location", "Characters", "Notes"] := rfl

/-- Claim C10 counterexample: with speaker JOHN active, the non-blank line
`MARY` is classified as a character cue BEFORE the active-speaker check, so
it becomes the new speaker and no Dialogue beat `JOHN: MARY` is emitted —
refuting "any non-blank line is emitted as a Dialogue Beat". -/
theorem cue_preempts_dialogue_cex :
    (parse_fountain_text "INT. A - DAY\nJOHN\nMARY").map Scene.beats = [[]] ∧
    is_character_cue "MARY" = true ∧
    pyStrip "MARY" ≠ "" := by decide

/-- Claim C10 (amended): when a speaker is active, any non-blank line that is
neither a scene heading nor a character cue — including a line matching the
transition pattern, such as `CUT TO:` — is emitted as a Dialogue beat
`speaker: text`; the transition check is reached only when no speaker is
active. -/
theorem dialogue_eats_transitions (st : PState) (sc : Scene) (ch line : String)
    (hline : rstripNL line = line)
    (hsc : st.current_scene = some sc)
    (hch : st.current_character = some ch)
    (hblank : pyStrip line ≠ "")
    (hhead : is_scene_heading line = false)
    (hcue : is_character_cue line = false) :
    step st line =
      { st with
        current_scene :=
          some { sc with beats := sc.beats ++ [("Dialogue", ch ++ ": " ++ pyStrip line)] } } ∧
    is_transition "CUT TO:" = true := by
  refine ⟨?_, by decide⟩
  simp [step, hline, hhead, hsc, hblank, hcue, hch]

/-- Witness for the dialogue claim at the concrete transition line `CUT TO:`. -/
theorem dialogue_eats_transitions_witness :
    step { scenes := [], current_scene := some demoScene, buffer_action := [],
           current_character := some "JOHN" } "CUT TO:" =
      { scenes := [],
        current_scene :=
          some { demoScene with beats := demoScene.beats ++ [("Dialogue", "JOHN: CUT TO:")] },
        buffer_action := [],
        current_character := some "JOHN" } ∧
    is_transition "CUT TO:" = true := by
  have h := dialogue_eats_transitions
    { scenes := [], current_scene := some demoScene, buffer_action := [],
      current_character := some "JOHN" } demoScene "JOHN" "CUT TO:"
    (by decide) rfl rfl (by decide) (by decide) (by decide)
  have he : ({ demoScene with beats :=
      demoScene.beats ++ [("Dialogue", "JOHN" ++ ": " ++ pyStrip "CUT TO:")] } : Scene) =
      { demoScene with beats := demoScene.beats ++ [("Dialogue", "JOHN: CUT TO:")] } := by
    decide
  exact ⟨h.1.trans (by rw [he]), h.2⟩

end FountainShotlist
